import Mathlib

/-
Verification of the tower-war simulation core.

The definitions below are shallow embeddings of the Python sources:
  * `src/utils/constants.py`   (owners, game settings)
  * `src/models/tower.py`      (Tower: validation, troops setter, growth,
                                `send_troops`, `receive_attack`)
  * `src/models/troop.py`      (Troop: collision test, `combat_with`, movement)
  * `src/controllers/game_controller.py`
                               (spawn queue, troop update/arrival pipeline,
                                win condition, level life cycle)
  * `src/controllers/level_manager.py`
  * `src/controllers/ai_controller.py` (`execute_action` dispatch phase)

Coordinates are modelled by `ℚ` (Python floats, exact arithmetic); wherever
the source compares a Euclidean distance `sqrt d2` against a nonnegative
threshold `c`, the embedding compares `d2 ≤ c ^ 2`, which is equivalent for
nonnegative `c`.  The movement routine `Troop.move`, whose step genuinely
uses the square root's value, is embedded separately over `ℝ`.
-/

namespace TowerWar

/-- Owner tags, `OwnerType` in `src/utils/constants.py`. -/
inductive Owner where
  | player
  | enemy
  | neutral
deriving DecidableEq

/-- `GameSettings.TOWER_MAX_TROOPS`. -/
def TOWER_MAX_TROOPS : Nat := 50

/-- `GameSettings.TOWER_GROWTH_RATE`. -/
def TOWER_GROWTH_RATE : Nat := 1

/-- `GameSettings.TOWER_RADIUS`. -/
def TOWER_RADIUS : ℚ := 30

/-- `GameSettings.TROOP_RADIUS`. -/
def TROOP_RADIUS : ℚ := 12

/-- Tower state: position, owner and troop count.  The Python attributes
`__owner`/`__troops` are visible only through the properties, which the
operations below model directly.  The troop count is a `Nat` because both
the constructor and the `troops` setter reject negative values. -/
structure Tower where
  x : ℚ
  y : ℚ
  owner : Owner
  troops : Nat
deriving DecidableEq

/-- `Tower.__init__` composed with `__validate_troops`: a negative initial
count raises `ValueError` (modelled by `none`); a count above
`TOWER_MAX_TROOPS` is deliberately let through uncapped (the validator's
`pass` branch), and the raw value is stored. -/
def mkTower (x y : ℚ) (owner : Owner) (troops : Int) : Option Tower :=
  if troops < 0 then none
  else some ⟨x, y, owner, troops.toNat⟩

/-- The `Tower.troops` property setter: `__validate_troops` rejects a
negative value (`ValueError`, modelled by `none`), then
`min value max_troops` is stored. -/
def Tower.setTroops (t : Tower) (value : Int) : Option Tower :=
  if value < 0 then none
  else some { t with troops := min value.toNat TOWER_MAX_TROOPS }

/-- The `troops` setter specialised to the (nonnegative) values produced by
the internal call sites in `tower.py`: stores `min value max_troops`. -/
def Tower.setTroopsN (t : Tower) (value : Nat) : Tower :=
  { t with troops := min value TOWER_MAX_TROOPS }

/-- `Tower.can_send_troops`: positive troops and a non-neutral owner. -/
def Tower.can_send_troops (t : Tower) : Bool :=
  decide (0 < t.troops) && decide (t.owner ≠ Owner.neutral)

/-- `Tower.send_troops`: sends `max 1 (troops / 2)`, reduced to
`troops - 1` when that would send everything; sends nothing when the
computed amount is `0`, otherwise decrements the count through the
`troops` setter and returns the amount sent. -/
def Tower.send_troops (t : Tower) : Tower × Nat :=
  if t.can_send_troops then
    let toSend0 := max 1 (t.troops / 2)
    let toSend := if toSend0 ≥ t.troops then t.troops - 1 else toSend0
    if toSend = 0 then (t, 0)
    else (t.setTroopsN (t.troops - toSend), toSend)
  else (t, 0)

/-- `Tower.receive_attack`: reinforcement when the attacker matches the
owner; capture (owner change, remainder stored) when the attacking amount
meets or exceeds the defending count; otherwise a plain decrement.  All
three branches write the new count through the `troops` setter. -/
def Tower.receive_attack (t : Tower) (attacking : Nat) (attacker : Owner) :
    Tower × Bool :=
  if t.owner = attacker then
    (t.setTroopsN (t.troops + attacking), false)
  else if attacking ≥ t.troops then
    let remaining := attacking - t.troops
    (Tower.setTroopsN { t with owner := attacker } remaining, true)
  else
    (t.setTroopsN (t.troops - attacking), false)

/-- `Tower.can_grow`: non-neutral owner and count below the maximum. -/
def Tower.can_grow (t : Tower) : Bool :=
  decide (t.owner ≠ Owner.neutral) && decide (t.troops < TOWER_MAX_TROOPS)

/-- The growth step of `Tower.update`, executed once per simulated second:
when the tower can grow, the growth rate is added through the `troops`
setter. -/
def Tower.growthTick (t : Tower) : Tower :=
  if t.can_grow then t.setTroopsN (t.troops + TOWER_GROWTH_RATE) else t

/-- C1. The claim states that a same-owner attack adds the amount exactly
and a capture stores exactly `amount - old`; but every branch of
`receive_attack` writes through the `troops` setter, which caps the stored
count at `TOWER_MAX_TROOPS = 50`.  On a tower already holding 50 troops a
same-owner attack of 1 leaves 50, not 51. -/
theorem receive_attack_uncapped_addition_fails :
    ¬ ((Tower.receive_attack ⟨0, 0, Owner.enemy, 50⟩ 1 Owner.enemy).1.troops
        = 50 + 1) := by
  decide

/-- C1 (amended): `receive_attack` with a matching attacker stores
`min (troops + amount) 50` and reports no capture; with a different
attacker and `amount ≥ troops` it stores owner `attacker` and
`min (amount - troops) 50` and reports capture; with a different attacker
and `amount < troops` it stores `min (troops - amount) 50` (which is
`troops - amount` whenever the cap invariant held) and reports no capture.
The three concrete examples of the claim (an Enemy tower with 5 troops
attacked by Player with 5, 3 and 7) behave exactly as claimed. -/
theorem receive_attack_spec (t : Tower) (amount : Nat) (attacker : Owner) :
    (t.owner = attacker →
      t.receive_attack amount attacker
        = ({ t with troops := min (t.troops + amount) TOWER_MAX_TROOPS }, false)) ∧
    (t.owner ≠ attacker → amount ≥ t.troops →
      t.receive_attack amount attacker
        = ({ t with owner := attacker, troops := min (amount - t.troops) TOWER_MAX_TROOPS }, true)) ∧
    (t.owner ≠ attacker → amount < t.troops →
      t.receive_attack amount attacker
        = ({ t with troops := min (t.troops - amount) TOWER_MAX_TROOPS }, false)) ∧
    (Tower.receive_attack ⟨0, 0, Owner.enemy, 5⟩ 5 Owner.player
        = (⟨0, 0, Owner.player, 0⟩, true)) ∧
    (Tower.receive_attack ⟨0, 0, Owner.enemy, 5⟩ 3 Owner.player
        = (⟨0, 0, Owner.enemy, 2⟩, false)) ∧
    (Tower.receive_attack ⟨0, 0, Owner.enemy, 5⟩ 7 Owner.player
        = (⟨0, 0, Owner.player, 2⟩, true)) := by
  refine ⟨?_, ?_, ?_, by decide, by decide, by decide⟩
  · intro h
    simp [Tower.receive_attack, Tower.setTroopsN, h]
  · intro h hge
    simp only [Tower.receive_attack, Tower.setTroopsN, if_neg h, if_pos hge]
  · intro h hlt
    simp only [Tower.receive_attack, Tower.setTroopsN, if_neg h,
      if_neg (Nat.not_le.mpr hlt)]

/-- Witness for `receive_attack_spec`: the capture branch at the concrete
claim example (Enemy tower with 5 troops, 7 attacking Player troops). -/
theorem receive_attack_spec_witness :
    (Owner.enemy ≠ Owner.player) ∧ (7 ≥ 5) ∧
    Tower.receive_attack ⟨0, 0, Owner.enemy, 5⟩ 7 Owner.player
      = (⟨0, 0, Owner.player, 2⟩, true) := by
  refine ⟨by decide, by decide, ?_⟩
  have h := (receive_attack_spec ⟨0, 0, Owner.enemy, 5⟩ 7 Owner.player).2.1
    (by decide) (by decide)
  simpa [Tower.setTroopsN] using h

/-- C2.  The claim says `send_troops` "decrements the source's troop count
by exactly the returned value" for every non-Neutral tower with positive
troops.  But the decrement is written through the capping `troops` setter:
on a tower holding 101 troops — which the constructor accepts, see
`tower_init_exceeds_cap` — the call returns `max 1 (101 / 2) = 50` while
the stored count becomes `min (101 - 50) 50 = 50`, a decrement of 51. -/
theorem send_troops_overcap_decrement_fails :
    (Tower.send_troops ⟨0, 0, Owner.player, 101⟩).2 = 50 ∧
    ¬ ((Tower.send_troops ⟨0, 0, Owner.player, 101⟩).1.troops = 101 - 50) := by
  decide

/-- C2 (amended): for every non-neutral tower with `0 < t` troops,
`send_troops` returns `max 1 (t / 2)` clamped so that at least one troop
stays home, and the new count is `t` minus the returned value written
through the capping setter (`min (t - sent) 50`, which equals `t - sent`
exactly whenever the cap invariant `t ≤ 50` held); a 1-troop tower sends
nothing; a neutral or empty tower sends nothing and is unchanged; a tower
with 10 troops sends 5 and keeps 5. -/
theorem send_troops_spec (t : Tower) :
    (t.owner ≠ Owner.neutral → 0 < t.troops →
      (t.send_troops).2 = min (max 1 (t.troops / 2)) (t.troops - 1) ∧
      (t.send_troops).1
        = { t with troops := min (t.troops - (t.send_troops).2) TOWER_MAX_TROOPS }) ∧
    ((t.owner = Owner.neutral ∨ t.troops = 0) → t.send_troops = (t, 0)) ∧
    (Tower.send_troops ⟨0, 0, Owner.player, 10⟩ = (⟨0, 0, Owner.player, 5⟩, 5)) ∧
    (Tower.send_troops ⟨0, 0, Owner.player, 1⟩ = (⟨0, 0, Owner.player, 1⟩, 0)) := by
  refine ⟨?_, ?_, by decide, by decide⟩
  · intro h1 h2
    have hcan : t.can_send_troops = true := by
      simp [Tower.can_send_troops, h1, h2]
    obtain ⟨x, y, o, tr⟩ := t
    simp only at h1 h2 hcan ⊢
    rcases Nat.lt_or_ge tr 2 with hlt | hge
    · have ht : tr = 1 := by omega
      subst ht
      refine ⟨?_, ?_⟩ <;> simp [Tower.send_troops, hcan, TOWER_MAX_TROOPS]
    · have hmax : max 1 (tr / 2) = tr / 2 := by omega
      have hnotge : ¬ (tr / 2 ≥ tr) := by omega
      have hne : ¬ (tr / 2 = 0) := by omega
      have hrec : (Tower.send_troops ⟨x, y, o, tr⟩).2 = tr / 2 := by
        simp only [Tower.send_troops, hcan, if_true, hmax, if_neg hnotge,
          if_neg hne]
      refine ⟨?_, ?_⟩
      · rw [hrec]
        omega
      · rw [hrec]
        simp only [Tower.send_troops, hcan, if_true, hmax, if_neg hnotge,
          if_neg hne, Tower.setTroopsN]
  · intro h
    rcases h with h | h
    · simp [Tower.send_troops, Tower.can_send_troops, h]
    · simp [Tower.send_troops, Tower.can_send_troops, h]

/-- Witness for `send_troops_spec`: the tower with 10 troops from the claim
sends `max 1 (10 / 2) = 5`. -/
theorem send_troops_spec_witness :
    (Owner.player ≠ Owner.neutral) ∧ (0 < 10) ∧
    (Tower.send_troops ⟨0, 0, Owner.player, 10⟩).2 = min (max 1 (10 / 2)) (10 - 1) := by
  refine ⟨by decide, by decide, ?_⟩
  exact ((send_troops_spec ⟨0, 0, Owner.player, 10⟩).1 (by decide) (by decide)).1

/-- C9: the claim asserts `0 ≤ troops ≤ MaxTroops` immediately after
construction from any accepted arguments, but `Tower.__init__` stores the
raw count and `__validate_troops` lets a count above the maximum through
uncapped: construction with 51 troops is accepted and leaves 51 > 50. -/
theorem tower_init_exceeds_cap :
    mkTower 0 0 Owner.neutral 51 = some ⟨0, 0, Owner.neutral, 51⟩ ∧
    ¬ ((51 : Nat) ≤ TOWER_MAX_TROOPS) := by
  decide

/-- C9 (amended): the troop count is never negative (constructor and setter
reject negative values), every mutation that goes through the `troops`
setter — growth, `send_troops`, `receive_attack`, direct assignment —
keeps `troops ≤ TOWER_MAX_TROOPS` whenever it held before (and
`receive_attack` and assignment re-establish it unconditionally); after
construction the bound holds iff the accepted initial count was within the
cap, since the constructor stores the raw value. -/
theorem troops_cap_invariant (t : Tower) (v : Int) (amount : Nat)
    (attacker : Owner) (h : t.troops ≤ TOWER_MAX_TROOPS) :
    (∀ u : Tower, t.setTroops v = some u → u.troops ≤ TOWER_MAX_TROOPS) ∧
    (t.growthTick).troops ≤ TOWER_MAX_TROOPS ∧
    (t.send_troops).1.troops ≤ TOWER_MAX_TROOPS ∧
    (t.receive_attack amount attacker).1.troops ≤ TOWER_MAX_TROOPS ∧
    (∀ (x y : ℚ) (o : Owner) (tr : Int) (u : Tower),
      mkTower x y o tr = some u →
        (u.troops ≤ TOWER_MAX_TROOPS ↔ tr ≤ (TOWER_MAX_TROOPS : Int))) := by
  refine ⟨?_, ?_, ?_, ?_, ?_⟩
  · intro u hu
    by_cases hv : v < 0
    · simp [Tower.setTroops, hv] at hu
    · simp only [Tower.setTroops, if_neg hv, Option.some.injEq] at hu
      subst hu
      exact min_le_right _ _
  · unfold Tower.growthTick Tower.setTroopsN
    by_cases hg : t.can_grow = true
    · rw [if_pos hg]
      exact min_le_right _ _
    · rw [if_neg hg]
      exact h
  · simp only [Tower.send_troops, Tower.setTroopsN]
    split_ifs <;> first | exact h | exact min_le_right _ _
  · simp only [Tower.receive_attack, Tower.setTroopsN]
    split_ifs <;> exact min_le_right _ _
  · intro x y o tr u hu
    by_cases htr : tr < 0
    · simp [mkTower, htr] at hu
    · simp only [mkTower, if_neg htr, Option.some.injEq] at hu
      subst hu
      show tr.toNat ≤ TOWER_MAX_TROOPS ↔ _
      simp only [TOWER_MAX_TROOPS]
      omega

/-- Witness for `troops_cap_invariant`: a player tower with 10 troops keeps
the cap after a growth tick. -/
theorem troops_cap_invariant_witness :
    ((⟨0, 0, Owner.player, 10⟩ : Tower).troops ≤ TOWER_MAX_TROOPS) ∧
    ((⟨0, 0, Owner.player, 10⟩ : Tower).growthTick).troops ≤ TOWER_MAX_TROOPS := by
  refine ⟨by decide, ?_⟩
  exact (troops_cap_invariant ⟨0, 0, Owner.player, 10⟩ 0 0 Owner.player
    (by decide)).2.1

/-- Squared Euclidean distance between two points. -/
def dist2 (x₁ y₁ x₂ y₂ : ℚ) : ℚ :=
  (x₂ - x₁) ^ 2 + (y₂ - y₁) ^ 2

/-- Troop state (`src/models/troop.py`): position, fixed target coordinate,
owner and unit count.  The owner-dependent speed multipliers of
`PlayerTroop`/`EnemyTroop` only scale `dt` inside `move` and are irrelevant
to collision and combat. -/
structure Troop where
  x : ℚ
  y : ℚ
  targetX : ℚ
  targetY : ℚ
  owner : Owner
  count : Nat
deriving DecidableEq

/-- `Troop.is_colliding_with`: same-owner pairs never collide; otherwise
the centre distance is compared with `radius + radius + 10`.  The source
compares `sqrt d2 ≤ c` with `c ≥ 0`, embedded here as `d2 ≤ c ^ 2`. -/
def Troop.is_colliding_with (t u : Troop) : Bool :=
  if t.owner = u.owner then false
  else decide (dist2 t.x t.y u.x u.y ≤ (TROOP_RADIUS + TROOP_RADIUS + 10) ^ 2)

/-- `Troop.combat_with`: same-owner pairs are returned unchanged; otherwise
the smaller group is eliminated (`none`) and the larger group survives with
the difference stored in place; equal counts eliminate both. -/
def Troop.combat_with (t u : Troop) : Option Troop × Option Troop :=
  if t.owner = u.owner then (some t, some u)
  else if t.count > u.count then (some { t with count := t.count - u.count }, none)
  else if u.count > t.count then (none, some { u with count := u.count - t.count })
  else (none, none)

/-- C3: combat between troops of different owners eliminates the smaller
group, the larger survives with `larger - smaller`, equal counts eliminate
both; same-owner troops never collide and combat leaves both unchanged;
Player 7 vs Enemy 3 leaves the Player troop with count 4, and 5 vs 5
eliminates both. -/
theorem combat_with_spec (t u : Troop) :
    (t.owner ≠ u.owner → t.count > u.count →
      t.combat_with u = (some { t with count := t.count - u.count }, none)) ∧
    (t.owner ≠ u.owner → u.count > t.count →
      t.combat_with u = (none, some { u with count := u.count - t.count })) ∧
    (t.owner ≠ u.owner → t.count = u.count → t.combat_with u = (none, none)) ∧
    (t.owner = u.owner →
      t.is_colliding_with u = false ∧ t.combat_with u = (some t, some u)) ∧
    (Troop.combat_with ⟨0, 0, 0, 0, Owner.player, 7⟩ ⟨0, 0, 0, 0, Owner.enemy, 3⟩
      = (some ⟨0, 0, 0, 0, Owner.player, 4⟩, none)) ∧
    (Troop.combat_with ⟨0, 0, 0, 0, Owner.player, 5⟩ ⟨0, 0, 0, 0, Owner.enemy, 5⟩
      = (none, none)) := by
  refine ⟨?_, ?_, ?_, ?_, by decide, by decide⟩
  · intro h hgt
    simp only [Troop.combat_with, if_neg h, if_pos hgt]
  · intro h hgt
    simp only [Troop.combat_with, if_neg h, if_neg (by omega : ¬ t.count > u.count),
      if_pos hgt]
  · intro h heq
    simp only [Troop.combat_with, if_neg h, if_neg (by omega : ¬ t.count > u.count),
      if_neg (by omega : ¬ u.count > t.count)]
  · intro h
    constructor
    · simp only [Troop.is_colliding_with, if_pos h]
    · simp only [Troop.combat_with, if_pos h]

/-- Witness for `combat_with_spec`: the Player-7 vs Enemy-3 example. -/
theorem combat_with_spec_witness :
    (Owner.player ≠ Owner.enemy) ∧ ((7 : Nat) > 3) ∧
    Troop.combat_with ⟨0, 0, 0, 0, Owner.player, 7⟩ ⟨0, 0, 0, 0, Owner.enemy, 3⟩
      = (some ⟨0, 0, 0, 0, Owner.player, 4⟩, none) := by
  refine ⟨by decide, by decide, ?_⟩
  exact (combat_with_spec ⟨0, 0, 0, 0, Owner.player, 7⟩
    ⟨0, 0, 0, 0, Owner.enemy, 3⟩).1 (by decide) (by decide)

/-- Position state for `Troop.move` (`src/models/troop.py`).  Movement is
the one routine whose arithmetic uses the square root's value (step
scaling and direction normalisation), so it is embedded over `ℝ`. -/
structure MTroop where
  x : ℝ
  y : ℝ
  targetX : ℝ
  targetY : ℝ

/-- Euclidean distance from the troop to its target coordinate. -/
noncomputable def MTroop.distToTarget (t : MTroop) : ℝ :=
  Real.sqrt ((t.targetX - t.x) ^ 2 + (t.targetY - t.y) ^ 2)

/-- The movement step computed by `Troop.move`: `speed * dt`, scaled by
`max 0.3 (distance / 20)` inside the slow-down zone (distance < 20).
`speed` is `GameSettings.TROOP_SPEED`; the `PlayerTroop`/`EnemyTroop`
overrides only rescale `dt` before calling this code. -/
noncomputable def MTroop.movementStep (speed dt : ℝ) (t : MTroop) : ℝ :=
  if t.distToTarget < 20 then speed * dt * max 0.3 (t.distToTarget / 20)
  else speed * dt

/-- `Troop.move`: snap to the target when within distance 2; snap when the
computed step meets or passes the remaining distance; otherwise advance
along the normalised direction by the step, and keep the new position only
if it is not farther from the target than before. -/
noncomputable def MTroop.move (speed dt : ℝ) (t : MTroop) : MTroop :=
  let d := t.distToTarget
  if d ≤ 2 then { t with x := t.targetX, y := t.targetY }
  else
    let step := MTroop.movementStep speed dt t
    if step ≥ d then { t with x := t.targetX, y := t.targetY }
    else
      let nx := t.x + (t.targetX - t.x) / d * step
      let ny := t.y + (t.targetY - t.y) / d * step
      if MTroop.distToTarget { t with x := nx, y := ny } ≤ d then
        { t with x := nx, y := ny }
      else t

/-- C10: a single `move` call never increases the distance to the target,
and whenever the troop is within the snap epsilon (distance ≤ 2) or the
computed movement step meets or passes the remaining distance, the
position becomes exactly the target coordinate. -/
theorem move_no_overshoot (speed dt : ℝ) (t : MTroop) (_hdt : 0 ≤ dt) :
    (MTroop.move speed dt t).distToTarget ≤ t.distToTarget ∧
    ((t.distToTarget ≤ 2 ∨ t.distToTarget ≤ MTroop.movementStep speed dt t) →
      (MTroop.move speed dt t).x = t.targetX ∧
      (MTroop.move speed dt t).y = t.targetY) := by
  have hsnap : MTroop.distToTarget { t with x := t.targetX, y := t.targetY } = 0 := by
    simp [MTroop.distToTarget]
  simp only [MTroop.move]
  split_ifs with h1 h2 h3
  · exact ⟨by rw [hsnap]; exact Real.sqrt_nonneg _, fun _ => ⟨rfl, rfl⟩⟩
  · exact ⟨by rw [hsnap]; exact Real.sqrt_nonneg _, fun _ => ⟨rfl, rfl⟩⟩
  · refine ⟨h3, ?_⟩
    rintro (hc | hc)
    · exact absurd hc h1
    · exact absurd hc h2
  · refine ⟨le_refl _, ?_⟩
    rintro (hc | hc)
    · exact absurd hc h1
    · exact absurd hc h2

/-- Witness for `move_no_overshoot`: a troop already at its target snaps
and the distance does not increase. -/
theorem move_no_overshoot_witness :
    (0 : ℝ) ≤ 1 ∧
    (MTroop.move 100 1 ⟨0, 0, 0, 0⟩).distToTarget
      ≤ (⟨0, 0, 0, 0⟩ : MTroop).distToTarget ∧
    (MTroop.move 100 1 ⟨0, 0, 0, 0⟩).x = 0 := by
  have h := move_no_overshoot 100 1 ⟨0, 0, 0, 0⟩ (by norm_num)
  refine ⟨by norm_num, h.1, ?_⟩
  have hd : (⟨0, 0, 0, 0⟩ : MTroop).distToTarget ≤ 2 := by
    simp [MTroop.distToTarget]
  exact (h.2 (Or.inl hd)).1

/-- A spawn-queue entry (`GameController._create_troop_spawn_queue`): the
Python dict {x, y, target_x, target_y, owner, spawn_time, formation_id,
formation_index}. -/
structure SpawnEntry where
  x : ℚ
  y : ℚ
  targetX : ℚ
  targetY : ℚ
  owner : Owner
  spawnTime : Nat
  formationId : Owner × ℚ × ℚ × ℚ × ℚ × Nat
  formationIndex : Nat
deriving DecidableEq

/-- The formation id, modelling the f-string
`"{owner}_{start_x}_{start_y}_{target_x}_{target_y}_{current_time}"` by the
tuple of its components. -/
def mkFormationId (owner : Owner) (sx sy tx ty : ℚ) (now : Nat) :
    Owner × ℚ × ℚ × ℚ × ℚ × Nat :=
  (owner, sx, sy, tx, ty, now)

/-- The baseline release time: the current time, or, when entries from the
same tower (position within 5, same owner) are already queued, their
latest scheduled time plus a 50 ms buffer. -/
def spawnBase (queue : List SpawnEntry) (startX startY : ℚ) (owner : Owner)
    (now : Nat) : Nat :=
  let towerEntries := queue.filter (fun e =>
    decide (|e.x - startX| < 5) && decide (|e.y - startY| < 5) &&
      decide (e.owner = owner))
  if towerEntries.isEmpty then now
  else (towerEntries.map (·.spawnTime)).foldl max 0 + 50

/-- The `count` entries appended by `_create_troop_spawn_queue`: entry `i`
is released at `base + i * 120` (a fixed 120 ms delay per unit). -/
def newSpawnEntries (startX startY targetX targetY : ℚ) (count : Nat)
    (owner : Owner) (base : Nat) (fid : Owner × ℚ × ℚ × ℚ × ℚ × Nat) :
    List SpawnEntry :=
  (List.range count).map (fun i =>
    ⟨startX, startY, targetX, targetY, owner, base + i * 120, fid, i⟩)

/-- `GameController._create_troop_spawn_queue`: no-op for a nonpositive
count, otherwise appends the new entries and re-sorts the queue by
scheduled time (Python's stable `list.sort`, modelled by insertion
sort). -/
def createSpawnQueue (queue : List SpawnEntry) (startX startY targetX targetY : ℚ)
    (count : Nat) (owner : Owner) (now : Nat) : List SpawnEntry :=
  if count = 0 then queue
  else
    let base := spawnBase queue startX startY owner now
    let entries := newSpawnEntries startX startY targetX targetY count owner base
      (mkFormationId owner startX startY targetX targetY now)
    List.insertionSort (fun a b => a.spawnTime ≤ b.spawnTime) (queue ++ entries)

/-- The live one-unit troop built from a due entry in
`_process_spawn_queue`: a `PlayerTroop` for a player entry and an
`EnemyTroop` (owner Enemy) for any other owner, always with count 1. -/
def spawnTroopOf (e : SpawnEntry) : Troop :=
  ⟨e.x, e.y, e.targetX, e.targetY,
    if e.owner = Owner.player then Owner.player else Owner.enemy, 1⟩

/-- The while-loop of `_process_spawn_queue`: pop and spawn the head while
its scheduled time has elapsed, stopping after 3 spawns in one call. -/
def processGo (now : Nat) : List SpawnEntry → List Troop → Nat →
    List SpawnEntry × List Troop
  | [], troops, _ => ([], troops)
  | e :: rest, troops, spawned =>
    if now ≥ e.spawnTime then
      if spawned + 1 ≥ 3 then (rest, troops ++ [spawnTroopOf e])
      else processGo now rest (troops ++ [spawnTroopOf e]) (spawned + 1)
    else (e :: rest, troops)

/-- `GameController._process_spawn_queue` at clock reading `now`. -/
def processSpawnQueue (now : Nat) (queue : List SpawnEntry) (troops : List Troop) :
    List SpawnEntry × List Troop :=
  if queue.isEmpty then (queue, troops) else processGo now queue troops 0

/-- Repeated calls of `_process_spawn_queue` at successive clock
readings. -/
def processSchedule : List Nat → List SpawnEntry × List Troop →
    List SpawnEntry × List Troop
  | [], qt => qt
  | t :: ts, qt => processSchedule ts (processSpawnQueue t qt.1 qt.2)

lemma processGo_conserve (now : Nat) :
    ∀ (q : List SpawnEntry) (tr : List Troop) (sp : Nat),
      (processGo now q tr sp).1.length + (processGo now q tr sp).2.length
        = q.length + tr.length := by
  intro q
  induction q with
  | nil => intro tr sp; simp [processGo]
  | cons e rest ih =>
    intro tr sp
    by_cases h : now ≥ e.spawnTime
    · by_cases h3 : sp + 1 ≥ 3
      · simp only [processGo, if_pos h, if_pos h3, List.length_cons,
          List.length_append, List.length_singleton, List.length_nil]
        omega
      · simp only [processGo, if_pos h, if_neg h3]
        rw [ih]
        simp only [List.length_cons, List.length_append, List.length_singleton,
          List.length_nil]
        omega
    · simp [processGo, h]

lemma processGo_mem (now : Nat) :
    ∀ (q : List SpawnEntry) (tr : List Troop) (sp : Nat),
      ∀ e ∈ (processGo now q tr sp).1, e ∈ q := by
  intro q
  induction q with
  | nil => intro tr sp e he; simp [processGo] at he
  | cons a rest ih =>
    intro tr sp e he
    by_cases h : now ≥ a.spawnTime
    · by_cases h3 : sp + 1 ≥ 3
      · simp only [processGo, if_pos h, if_pos h3] at he
        exact List.mem_cons_of_mem _ he
      · simp only [processGo, if_pos h, if_neg h3] at he
        exact List.mem_cons_of_mem _ (ih _ _ e he)
    · simp only [processGo, if_neg h] at he
      exact he

lemma processGo_tr_mono (now : Nat) :
    ∀ (q : List SpawnEntry) (tr : List Troop) (sp : Nat),
      tr.length ≤ (processGo now q tr sp).2.length := by
  intro q
  induction q with
  | nil => intro tr sp; simp [processGo]
  | cons a rest ih =>
    intro tr sp
    by_cases h : now ≥ a.spawnTime
    · by_cases h3 : sp + 1 ≥ 3
      · simp only [processGo, if_pos h, if_pos h3, List.length_append]
        omega
      · simp only [processGo, if_pos h, if_neg h3]
        refine le_trans ?_ (ih (tr ++ [spawnTroopOf a]) (sp + 1))
        simp
    · simp [processGo, h]

lemma processGo_cap (now : Nat) :
    ∀ (q : List SpawnEntry) (tr : List Troop) (sp : Nat), sp ≤ 2 →
      (processGo now q tr sp).2.length + sp ≤ tr.length + 3 := by
  intro q
  induction q with
  | nil => intro tr sp hsp; simp [processGo]; omega
  | cons a rest ih =>
    intro tr sp hsp
    by_cases h : now ≥ a.spawnTime
    · by_cases h3 : sp + 1 ≥ 3
      · simp only [processGo, if_pos h, if_pos h3, List.length_append,
          List.length_singleton]
        omega
      · have := ih (tr ++ [spawnTroopOf a]) (sp + 1) (by omega)
        simp only [processGo, if_pos h, if_neg h3]
        simp only [List.length_append, List.length_singleton] at this
        omega
    · simp [processGo, h]
      omega

lemma processGo_allDue (now : Nat) :
    ∀ (q : List SpawnEntry) (tr : List Troop) (sp : Nat),
      (∀ e ∈ q, e.spawnTime ≤ now) → sp ≤ 2 →
      (processGo now q tr sp).1.length = q.length - min (3 - sp) q.length := by
  intro q
  induction q with
  | nil => intro tr sp hdue hsp; simp [processGo]
  | cons a rest ih =>
    intro tr sp hdue hsp
    have h : now ≥ a.spawnTime := hdue a (List.mem_cons_self _ _)
    by_cases h3 : sp + 1 ≥ 3
    · simp only [processGo, if_pos h, if_pos h3, List.length_cons]
      omega
    · have := ih (tr ++ [spawnTroopOf a]) (sp + 1)
        (fun e he => hdue e (List.mem_cons_of_mem _ he)) (by omega)
      simp only [processGo, if_pos h, if_neg h3, List.length_cons]
      rw [this]
      omega

lemma processSpawnQueue_conserve (now : Nat) (q : List SpawnEntry)
    (tr : List Troop) :
    (processSpawnQueue now q tr).1.length + (processSpawnQueue now q tr).2.length
      = q.length + tr.length := by
  by_cases h : q.isEmpty
  · simp [processSpawnQueue, h]
  · simp only [processSpawnQueue, h, if_false, Bool.false_eq_true]
    exact processGo_conserve now q tr 0

lemma processSpawnQueue_cap (now : Nat) (q : List SpawnEntry) (tr : List Troop) :
    (processSpawnQueue now q tr).2.length ≤ tr.length + 3 := by
  by_cases h : q.isEmpty
  · simp [processSpawnQueue, h]
  · simp only [processSpawnQueue, h, if_false, Bool.false_eq_true]
    have := processGo_cap now q tr 0 (by omega)
    omega

lemma processSpawnQueue_mem (now : Nat) (q : List SpawnEntry) (tr : List Troop) :
    ∀ e ∈ (processSpawnQueue now q tr).1, e ∈ q := by
  by_cases h : q.isEmpty
  · simp [processSpawnQueue, h]
  · simp only [processSpawnQueue, h, if_false, Bool.false_eq_true]
    exact processGo_mem now q tr 0

lemma processSpawnQueue_allDue (now : Nat) (q : List SpawnEntry) (tr : List Troop)
    (hdue : ∀ e ∈ q, e.spawnTime ≤ now) :
    (processSpawnQueue now q tr).1.length = q.length - min 3 q.length := by
  by_cases h : q.isEmpty
  · have : q = [] := List.isEmpty_iff.mp h
    subst this
    simp [processSpawnQueue]
  · simp only [processSpawnQueue, h, if_false, Bool.false_eq_true]
    exact processGo_allDue now q tr 0 hdue (by omega)

lemma processSpawnQueue_len_mono (now : Nat) (q : List SpawnEntry)
    (tr : List Troop) :
    (processSpawnQueue now q tr).1.length ≤ q.length := by
  have h1 := processSpawnQueue_conserve now q tr
  have h2 : tr.length ≤ (processSpawnQueue now q tr).2.length := by
    by_cases h : q.isEmpty
    · simp [processSpawnQueue, h]
    · simp only [processSpawnQueue, h, if_false, Bool.false_eq_true]
      exact processGo_tr_mono now q tr 0
  omega

lemma processSchedule_conserve :
    ∀ (ts : List Nat) (q : List SpawnEntry) (tr : List Troop),
      (processSchedule ts (q, tr)).1.length + (processSchedule ts (q, tr)).2.length
        = q.length + tr.length := by
  intro ts
  induction ts with
  | nil => intro q tr; simp [processSchedule]
  | cons t ts ih =>
    intro q tr
    simp only [processSchedule]
    rw [ih]
    exact processSpawnQueue_conserve t q tr

lemma processSchedule_drain (T : Nat) :
    ∀ (ts : List Nat) (q : List SpawnEntry) (tr : List Troop),
      (∀ e ∈ q, e.spawnTime ≤ T) →
      q.length ≤ 3 * (ts.filter (fun x => T ≤ x)).length →
      (processSchedule ts (q, tr)).1 = [] := by
  intro ts
  induction ts with
  | nil =>
    intro q tr hdue hlen
    simp only [List.filter_nil, List.length_nil, Nat.mul_zero,
      Nat.le_zero] at hlen
    have : q = [] := List.length_eq_zero.mp hlen
    subst this
    simp [processSchedule]
  | cons t ts ih =>
    intro q tr hdue hlen
    simp only [processSchedule]
    have hdue2 : ∀ e ∈ (processSpawnQueue t q tr).1, e.spawnTime ≤ T :=
      fun e he => hdue e (processSpawnQueue_mem t q tr e he)
    by_cases hT : T ≤ t
    · have hq2 : (processSpawnQueue t q tr).1.length = q.length - min 3 q.length :=
        processSpawnQueue_allDue t q tr (fun e he => le_trans (hdue e he) hT)
      have hfil : (List.filter (fun x => decide (T ≤ x)) (t :: ts)).length
          = (List.filter (fun x => decide (T ≤ x)) ts).length + 1 := by
        simp [List.filter_cons, hT]
      apply ih _ _ hdue2
      simp only [hfil] at hlen ⊢
      omega
    · have hmono := processSpawnQueue_len_mono t q tr
      have hfil : (List.filter (fun x => decide (T ≤ x)) (t :: ts)).length
          = (List.filter (fun x => decide (T ≤ x)) ts).length := by
        simp [List.filter_cons, hT]
      apply ih _ _ hdue2
      simp only [hfil] at hlen
      omega

/-- C8: enqueuing a send of `N > 0` troops appends exactly `N` entries to
the queue (the result is a permutation of the old queue plus the new
entries, re-sorted by release time); the `i`-th new entry is released at
`base + 120 * i`, so consecutive release times are 120 ms apart, and each
entry spawns a one-unit troop; each processor call converts at most 3 due
entries and conserves entries-plus-troops; and for any schedule of clock
readings whose due calls suffice (`3` per call), the queue fully drains,
producing exactly `queue-length` additional live troops, regardless of how
time was stepped. -/
theorem spawn_queue_spec (q : List SpawnEntry) (sx sy tx ty : ℚ) (N : Nat)
    (o : Owner) (now : Nat) (tr : List Troop) (ts : List Nat) (T : Nat) :
    (0 < N →
      List.Perm (createSpawnQueue q sx sy tx ty N o now)
        (q ++ newSpawnEntries sx sy tx ty N o (spawnBase q sx sy o now)
          (mkFormationId o sx sy tx ty now)) ∧
      (newSpawnEntries sx sy tx ty N o (spawnBase q sx sy o now)
        (mkFormationId o sx sy tx ty now)).length = N ∧
      (∀ i, i < N →
        (newSpawnEntries sx sy tx ty N o (spawnBase q sx sy o now)
            (mkFormationId o sx sy tx ty now))[i]?
          = some ⟨sx, sy, tx, ty, o, spawnBase q sx sy o now + i * 120,
              mkFormationId o sx sy tx ty now, i⟩) ∧
      (∀ e ∈ newSpawnEntries sx sy tx ty N o (spawnBase q sx sy o now)
          (mkFormationId o sx sy tx ty now), (spawnTroopOf e).count = 1)) ∧
    ((processSpawnQueue now q tr).2.length ≤ tr.length + 3) ∧
    ((processSpawnQueue now q tr).1.length + (processSpawnQueue now q tr).2.length
      = q.length + tr.length) ∧
    ((∀ e ∈ q, e.spawnTime ≤ T) →
      q.length ≤ 3 * (ts.filter (fun x => T ≤ x)).length →
      (processSchedule ts (q, tr)).1 = [] ∧
      (processSchedule ts (q, tr)).2.length = q.length + tr.length) := by
  refine ⟨?_, processSpawnQueue_cap now q tr, processSpawnQueue_conserve now q tr, ?_⟩
  · intro hN
    refine ⟨?_, ?_, ?_, fun e _ => rfl⟩
    · simp only [createSpawnQueue, if_neg (Nat.pos_iff_ne_zero.mp hN)]
      exact List.perm_insertionSort _ _
    · simp [newSpawnEntries]
    · intro i hi
      simp [newSpawnEntries, List.getElem?_map, List.getElem?_range, hi]
  · intro hdue hlen
    have h1 := processSchedule_drain T ts q tr hdue hlen
    have h2 := processSchedule_conserve ts q tr
    refine ⟨h1, ?_⟩
    rw [h1] at h2
    simpa using h2

/-- Witness for `spawn_queue_spec`: enqueue 4 units at time 0 (releases at
0, 120, 240, 360) and process the resulting queue twice at time 1000: the
queue drains and exactly 4 live troops appear. -/
theorem spawn_queue_spec_witness :
    (0 < 4) ∧
    (∀ e ∈ createSpawnQueue [] 0 0 5 5 4 Owner.player 0, e.spawnTime ≤ 1000) ∧
    ((createSpawnQueue [] 0 0 5 5 4 Owner.player 0).length
      ≤ 3 * (([1000, 1000].filter (fun x => 1000 ≤ x)).length)) ∧
    (processSchedule [1000, 1000]
      (createSpawnQueue [] 0 0 5 5 4 Owner.player 0, [])).1 = [] ∧
    (processSchedule [1000, 1000]
      (createSpawnQueue [] 0 0 5 5 4 Owner.player 0, [])).2.length
      = (createSpawnQueue [] 0 0 5 5 4 Owner.player 0).length + ([] : List Troop).length := by
  refine ⟨by decide, by decide, by decide, ?_⟩
  exact (spawn_queue_spec (createSpawnQueue [] 0 0 5 5 4 Owner.player 0)
    0 0 5 5 4 Owner.player 0 [] [1000, 1000] 1000).2.2.2 (by decide) (by decide)

/-- Game states, `GameState` in `src/utils/constants.py`. -/
inductive GState where
  | playing
  | gameOver
  | paused
  | levelComplete
deriving DecidableEq

/-- `LevelManager` state (`src/controllers/level_manager.py`): current
level, maximum level (3) and the set of completed levels.  The static
per-level configuration table is not part of the mutable state. -/
structure LevelManager where
  currentLevel : Nat
  maxLevel : Nat
  levelsCompleted : Finset Nat
deriving DecidableEq

/-- `LevelManager.complete_current_level`: records the current level as
completed and reports whether a further level exists.  It does NOT change
`current_level`. -/
def completeCurrentLevel (lm : LevelManager) : LevelManager × Bool :=
  ({ lm with levelsCompleted := insert lm.currentLevel lm.levelsCompleted },
   decide (lm.currentLevel < lm.maxLevel))

/-- `LevelManager.reset_to_level_1`. -/
def resetToLevel1 (lm : LevelManager) : LevelManager :=
  { lm with currentLevel := 1, levelsCompleted := ∅ }

/-- The notifications relevant to the win condition and level life cycle
(`notify(event, payload)` calls in `game_controller.py`); the statistics
payload of `game_over` is not modelled. -/
inductive GEvent where
  | levelComplete (winner : Owner) (level : Nat) (hasNext : Bool)
  | gameOver (winner : Owner)
  | gameStateChanged (old new : GState)
deriving DecidableEq

/-- The `GameController` state relevant to the win condition and level
life cycle: game state, entity lists, spawn queue, winner, the
`_game_ended` latch and the level manager.  Selection state and play
statistics are omitted. -/
structure GameCtrl where
  gameState : GState
  towers : List Tower
  troops : List Troop
  spawnQueue : List SpawnEntry
  winner : Option Owner
  gameEnded : Bool
  levelManager : LevelManager
deriving DecidableEq

/-- The number of towers with the given owner, the per-owner count
`owner_count` computed by `_check_win_condition`. -/
def countOwner (towers : List Tower) (o : Owner) : Nat :=
  (towers.filter (fun t => decide (t.owner = o))).length

/-- `GameController._check_win_condition`: a no-op when the `_game_ended`
latch is set or the state is already GameOver/LevelComplete; otherwise
counts towers per owner, declares Player the winner when Player count > 0
and Enemy count = 0 (LevelComplete, `complete_current_level`), declares
Enemy the winner when Enemy count > 0 and Player count = 0 (GameOver,
`reset_to_level_1`), and otherwise changes nothing.  Returns the new state
and the notifications fired. -/
def checkWinCondition (g : GameCtrl) : GameCtrl × List GEvent :=
  if g.gameEnded = true ∨ g.gameState = GState.gameOver ∨
      g.gameState = GState.levelComplete then (g, [])
  else
    let playerTowers := countOwner g.towers Owner.player
    let enemyTowers := countOwner g.towers Owner.enemy
    if 0 < playerTowers ∧ enemyTowers = 0 then
      let lmPair := completeCurrentLevel g.levelManager
      ({ g with gameState := GState.levelComplete, gameEnded := true,
                winner := some Owner.player, levelManager := lmPair.1 },
        [GEvent.levelComplete Owner.player lmPair.1.currentLevel lmPair.2,
         GEvent.gameStateChanged g.gameState GState.levelComplete])
    else if 0 < enemyTowers ∧ playerTowers = 0 then
      ({ g with gameState := GState.gameOver, gameEnded := true,
                winner := some Owner.enemy,
                levelManager := resetToLevel1 g.levelManager },
        [GEvent.gameOver Owner.enemy,
         GEvent.gameStateChanged g.gameState GState.gameOver])
    else (g, [])

/-- `GameController._init_new_level`, with the towers created for the new
level's configuration passed in (their neutral troop counts are drawn from
`random.randint`): clears the entity lists and the winner.  Crucially, the
source does not touch `_game_state` or the `_game_ended` latch here. -/
def initNewLevel (g : GameCtrl) (newTowers : List Tower) : GameCtrl :=
  { g with towers := newTowers, troops := [], spawnQueue := [], winner := none }

/-- `GameController.restart_game` (same tower-creation parameter as
`initNewLevel`): returns to Playing, clears the entity lists and the
winner, and resets the `_game_ended` latch to `false`. -/
def restartGame (g : GameCtrl) (newTowers : List Tower) : GameCtrl :=
  { g with gameState := GState.playing, towers := newTowers, troops := [],
           spawnQueue := [], winner := none, gameEnded := false }

/-- Keys handled by `handle_level_complete_input`. -/
inductive GKey where
  | space
  | rKey
  | other
deriving DecidableEq

/-- `GameController.handle_level_complete_input`: in LevelComplete, SPACE
starts the next level via `_init_new_level` and returns to Playing, R
restarts from the current configuration. -/
def handleLevelCompleteInput (g : GameCtrl) (key : GKey)
    (newTowers : List Tower) : GameCtrl :=
  if g.gameState = GState.levelComplete then
    match key with
    | GKey.space => { initNewLevel g newTowers with gameState := GState.playing }
    | GKey.rKey => restartGame g newTowers
    | GKey.other => g
  else g

/-- C5: the claim says the level manager "advances" when the Player wins,
but `_check_win_condition` only calls `complete_current_level`, which
records completion and leaves `current_level` unchanged: winning level 1
leaves the manager at level 1, not 2. -/
theorem check_win_level_not_advanced :
    (checkWinCondition ⟨GState.playing, [⟨0, 0, Owner.player, 10⟩], [], [],
        none, false, ⟨1, 3, ∅⟩⟩).1.gameState = GState.levelComplete ∧
    ¬ ((checkWinCondition ⟨GState.playing, [⟨0, 0, Owner.player, 10⟩], [], [],
        none, false, ⟨1, 3, ∅⟩⟩).1.levelManager.currentLevel = 1 + 1) := by
  decide

/-- C5 (amended): evaluated while Playing with the game not ended, the
Player is declared winner exactly when Player count > 0 and Enemy count =
0 — the state becomes LevelComplete and the level manager records the
level as completed (reporting whether a next level exists) while
`current_level` stays unchanged; the Enemy is declared winner exactly when
Enemy count > 0 and Player count = 0 — the state becomes GameOver and the
level manager resets to level 1; with both sides present (or neither),
nothing changes and no event fires.  Neutral towers are ignored. -/
theorem check_win_spec (g : GameCtrl) (hplay : g.gameState = GState.playing)
    (hend : g.gameEnded = false) :
    (0 < countOwner g.towers Owner.player → countOwner g.towers Owner.enemy = 0 →
      checkWinCondition g =
        ({ g with gameState := GState.levelComplete, gameEnded := true,
                  winner := some Owner.player,
                  levelManager := (completeCurrentLevel g.levelManager).1 },
         [GEvent.levelComplete Owner.player g.levelManager.currentLevel
            (completeCurrentLevel g.levelManager).2,
          GEvent.gameStateChanged GState.playing GState.levelComplete]) ∧
      (checkWinCondition g).1.levelManager.currentLevel
        = g.levelManager.currentLevel) ∧
    (0 < countOwner g.towers Owner.enemy → countOwner g.towers Owner.player = 0 →
      checkWinCondition g =
        ({ g with gameState := GState.gameOver, gameEnded := true,
                  winner := some Owner.enemy,
                  levelManager := resetToLevel1 g.levelManager },
         [GEvent.gameOver Owner.enemy,
          GEvent.gameStateChanged GState.playing GState.gameOver]) ∧
      (checkWinCondition g).1.levelManager.currentLevel = 1) ∧
    (0 < countOwner g.towers Owner.player → 0 < countOwner g.towers Owner.enemy →
      checkWinCondition g = (g, [])) ∧
    (countOwner g.towers Owner.player = 0 → countOwner g.towers Owner.enemy = 0 →
      checkWinCondition g = (g, [])) := by
  have hguard : ¬ (g.gameEnded = true ∨ g.gameState = GState.gameOver ∨
      g.gameState = GState.levelComplete) := by
    simp [hplay, hend]
  refine ⟨?_, ?_, ?_, ?_⟩
  · intro hp he
    have hc1 : 0 < countOwner g.towers Owner.player ∧
        countOwner g.towers Owner.enemy = 0 := ⟨hp, he⟩
    constructor
    · simp only [checkWinCondition]
      rw [if_neg hguard, if_pos hc1, hplay]
      rfl
    · simp only [checkWinCondition]
      rw [if_neg hguard, if_pos hc1]
      rfl
  · intro he hp
    have hn1 : ¬ (0 < countOwner g.towers Owner.player ∧
        countOwner g.towers Owner.enemy = 0) := by omega
    have hc2 : 0 < countOwner g.towers Owner.enemy ∧
        countOwner g.towers Owner.player = 0 := ⟨he, hp⟩
    constructor
    · simp only [checkWinCondition]
      rw [if_neg hguard, if_neg hn1, if_pos hc2, hplay]
    · simp only [checkWinCondition]
      rw [if_neg hguard, if_neg hn1, if_pos hc2]
      rfl
  · intro hp he
    have hn1 : ¬ (0 < countOwner g.towers Owner.player ∧
        countOwner g.towers Owner.enemy = 0) := by omega
    have hn2 : ¬ (0 < countOwner g.towers Owner.enemy ∧
        countOwner g.towers Owner.player = 0) := by omega
    simp only [checkWinCondition]
    rw [if_neg hguard, if_neg hn1, if_neg hn2]
  · intro hp he
    have hn1 : ¬ (0 < countOwner g.towers Owner.player ∧
        countOwner g.towers Owner.enemy = 0) := by omega
    have hn2 : ¬ (0 < countOwner g.towers Owner.enemy ∧
        countOwner g.towers Owner.player = 0) := by omega
    simp only [checkWinCondition]
    rw [if_neg hguard, if_neg hn1, if_neg hn2]

/-- Witness for `check_win_spec`: a Playing, non-ended state whose only
tower is Player-owned resolves to LevelComplete. -/
theorem check_win_spec_witness :
    (⟨GState.playing, [⟨0, 0, Owner.player, 10⟩], [], [], none, false,
        ⟨1, 3, ∅⟩⟩ : GameCtrl).gameState = GState.playing ∧
    (⟨GState.playing, [⟨0, 0, Owner.player, 10⟩], [], [], none, false,
        ⟨1, 3, ∅⟩⟩ : GameCtrl).gameEnded = false ∧
    (checkWinCondition ⟨GState.playing, [⟨0, 0, Owner.player, 10⟩], [], [],
        none, false, ⟨1, 3, ∅⟩⟩).1.gameState = GState.levelComplete := by
  refine ⟨rfl, rfl, ?_⟩
  have h := ((check_win_spec ⟨GState.playing, [⟨0, 0, Owner.player, 10⟩], [],
    [], none, false, ⟨1, 3, ∅⟩⟩ rfl rfl).1 (by decide) (by decide)).1
  rw [h]

/-- A level-1 position: one player tower, one enemy tower, game running. -/
def c6Level1 : GameCtrl :=
  ⟨GState.playing, [⟨0, 0, Owner.player, 10⟩, ⟨900, 0, Owner.enemy, 5⟩],
    [], [], none, false, ⟨1, 3, ∅⟩⟩

/-- Level 1 after the player captures the enemy tower (a `receive_attack`
with 5 attacking troops flips its owner). -/
def c6AfterCapture1 : GameCtrl :=
  { c6Level1 with towers := [⟨0, 0, Owner.player, 10⟩,
      (Tower.receive_attack ⟨900, 0, Owner.enemy, 5⟩ 5 Owner.player).1] }

/-- The controller state right after the level-1 win resolved. -/
def c6Resolved : GameCtrl := (checkWinCondition c6AfterCapture1).1

/-- Pressing SPACE on the LevelComplete screen: `_init_new_level` with the
level-2 towers, back to Playing. -/
def c6Level2 : GameCtrl :=
  handleLevelCompleteInput c6Resolved GKey.space
    [⟨0, 0, Owner.player, 20⟩, ⟨900, 0, Owner.enemy, 10⟩]

/-- Level 2 after the player captures the last enemy tower. -/
def c6Level2Captured : GameCtrl :=
  { c6Level2 with towers := [⟨0, 0, Owner.player, 20⟩,
      (Tower.receive_attack ⟨900, 0, Owner.enemy, 10⟩ 10 Owner.player).1] }

/-- C6: the win fires exactly once in the first game instance (the latch
suppresses re-evaluation), and `restart_game` does clear the latch; but
the LevelComplete → Playing path (`handle_level_complete_input` SPACE →
`_init_new_level`) does not reset `_game_ended`, so after entering level 2
the player can capture every enemy tower and the win check fires no event
at all — contradicting the claim that each new instance's win event fires
exactly once. -/
theorem win_latch_not_reset_on_new_level :
    (checkWinCondition c6AfterCapture1).2 ≠ [] ∧
    checkWinCondition c6Resolved = (c6Resolved, []) ∧
    c6Level2.gameState = GState.playing ∧
    c6Level2.gameEnded = true ∧
    0 < countOwner c6Level2Captured.towers Owner.player ∧
    countOwner c6Level2Captured.towers Owner.enemy = 0 ∧
    c6Level2Captured.gameState = GState.playing ∧
    checkWinCondition c6Level2Captured = (c6Level2Captured, []) ∧
    (restartGame c6Resolved [⟨0, 0, Owner.player, 20⟩]).gameEnded = false := by
  decide

/-- The `action_type`/`type` strings appearing in AI actions
(`single_attack`, `coordinated_assault`, `strategic_expansion`,
`defensive_consolidation`, `multi_attack`). -/
inductive ActionType where
  | singleAttack
  | coordinatedAssault
  | strategicExpansion
  | defensiveConsolidation
  | multiAttack
deriving DecidableEq

/-- The keys of the Python dicts returned by
`AIController.execute_action`: `source`, `target`, `troops_count`,
`action_type`, `attacks`, `total_troops`. -/
inductive AIKey where
  | source
  | target
  | troopsCount
  | actionType
  | attacks
  | totalTroops
deriving DecidableEq

/-- The values stored in those dicts: tower references, counts, action
types, and the list of per-source attack records
{source, target, troops_count}. -/
inductive AIValue where
  | towerV (t : Tower)
  | natV (n : Nat)
  | typeV (a : ActionType)
  | attacksV (l : List (Tower × Tower × Nat))
deriving DecidableEq

/-- A Python dict with the above keys. -/
abbrev AIDict := List (AIKey × AIValue)

/-- Dictionary lookup; `none` models a missing key (`KeyError` on
subscript access). -/
def dictGet (d : AIDict) (k : AIKey) : Option AIValue :=
  (d.find? (fun p => decide (p.1 = k))).map (fun p => p.2)

/-- A strategy proposal as consumed by `execute_action`: the multi-source
shape (`sources`/`target`/`type`, produced by the Smart strategy's
coordinated assault, strategic expansion and defensive consolidation) or
the legacy single shape (`action.get('source')`/`action.get('target')`). -/
inductive Proposal where
  | withSources (sources : List Tower) (target : Tower) (ptype : ActionType)
  | legacy (source : Option Tower) (target : Option Tower)

/-- The dispatch phase of `AIController.execute_action` (given the
proposal the strategy returned): a multi-source proposal dispatches from
every source that can still send, collects the per-source attack records
and the aggregate count, and — when at least one dispatch succeeded —
returns the dict with keys attacks/target/total_troops/action_type; the
legacy shape dispatches from the single source and returns the dict with
keys source/target/troops_count/action_type when troops were sent;
otherwise the result is `None`. -/
def executeDispatch (p : Proposal) : Option AIDict :=
  match p with
  | Proposal.withSources sources target ptype =>
    let step := sources.foldl
      (fun (acc : List (Tower × Tower × Nat) × Nat) s =>
        if s.can_send_troops then
          let sent := s.send_troops
          if 0 < sent.2 then
            (acc.1 ++ [(sent.1, target, sent.2)], acc.2 + sent.2)
          else acc
        else acc)
      ([], 0)
    if step.1.isEmpty then none
    else some [(AIKey.attacks, AIValue.attacksV step.1),
               (AIKey.target, AIValue.towerV target),
               (AIKey.totalTroops, AIValue.natV step.2),
               (AIKey.actionType, AIValue.typeV ptype)]
  | Proposal.legacy osrc otgt =>
    match osrc, otgt with
    | some s, some tgt =>
      if s.can_send_troops then
        let sent := s.send_troops
        if 0 < sent.2 then
          some [(AIKey.source, AIValue.towerV sent.1),
                (AIKey.target, AIValue.towerV tgt),
                (AIKey.troopsCount, AIValue.natV sent.2),
                (AIKey.actionType, AIValue.typeV ActionType.singleAttack)]
        else none
      else none
    | _, _ => none

/-- `GameController.update`'s consumption of a non-null `execute_action`
result: it subscripts `ai_action['source']`, `ai_action['target']` and
`ai_action['troops_count']` to build the spawn-queue entries; a missing
key raises `KeyError`, modelled by `none`. -/
def consumeAIAction (d : AIDict) : Option ((ℚ × ℚ) × (ℚ × ℚ) × Nat) :=
  match dictGet d AIKey.source, dictGet d AIKey.target,
      dictGet d AIKey.troopsCount with
  | some (AIValue.towerV s), some (AIValue.towerV t), some (AIValue.natV n) =>
    some ((s.x, s.y), (t.x, t.y), n)
  | _, _, _ => none

/-- The dict `execute_action` returns for a one-source coordinated assault
from an enemy tower with 10 troops (it sends 5, keeping 5). -/
def c7MultiResult : AIDict :=
  [(AIKey.attacks, AIValue.attacksV
      [(⟨900, 0, Owner.enemy, 5⟩, ⟨0, 0, Owner.player, 10⟩, 5)]),
   (AIKey.target, AIValue.towerV ⟨0, 0, Owner.player, 10⟩),
   (AIKey.totalTroops, AIValue.natV 5),
   (AIKey.actionType, AIValue.typeV ActionType.coordinatedAssault)]

/-- The dict `execute_action` returns for the same dispatch proposed in
the legacy single-source shape. -/
def c7SingleResult : AIDict :=
  [(AIKey.source, AIValue.towerV ⟨900, 0, Owner.enemy, 5⟩),
   (AIKey.target, AIValue.towerV ⟨0, 0, Owner.player, 10⟩),
   (AIKey.troopsCount, AIValue.natV 5),
   (AIKey.actionType, AIValue.typeV ActionType.singleAttack)]

/-- C7: `execute_action` can return the multi-source result shape (keys
attacks/target/total_troops/action_type), but the Game Controller reads
keys `source` and `troops_count`, which that shape does not contain, so
consumption fails (`KeyError`) and no spawn-queue entries are created for
its dispatches; the legacy single shape is consumed fine.  This refutes
the claim that every key the controller reads is present in every
non-null result. -/
theorem ai_multi_result_not_consumable :
    executeDispatch (Proposal.withSources [⟨900, 0, Owner.enemy, 10⟩]
        ⟨0, 0, Owner.player, 10⟩ ActionType.coordinatedAssault)
      = some c7MultiResult ∧
    dictGet c7MultiResult AIKey.source = none ∧
    dictGet c7MultiResult AIKey.troopsCount = none ∧
    consumeAIAction c7MultiResult = none ∧
    executeDispatch (Proposal.legacy (some ⟨900, 0, Owner.enemy, 10⟩)
        (some ⟨0, 0, Owner.player, 10⟩)) = some c7SingleResult ∧
    consumeAIAction c7SingleResult = some ((900, 0), (0, 0), 5) := by
  decide

/-- `Troop.has_reached_target`: distance to the target at most 5
(embedded as squared distance ≤ 25). -/
def Troop.has_reached_target (t : Troop) : Bool :=
  decide (dist2 t.x t.y t.targetX t.targetY ≤ 25)

/-- The scan of `GameController._find_target_tower` over the enumerated
tower list, carrying the closest-tower-to-target accumulator
(index, squared distance to the troop's target, tower).  All of the
source's `sqrt`-distance comparisons appear in squared form, and the
closest-tower minimum is tracked by strict `<` on squared distances,
which agrees with the source's `<` on distances. -/
def findTargetGo (tr : Troop) : List (Nat × Tower) → Option (Nat × ℚ × Tower) →
    Option Nat
  | [], closest =>
    match closest with
    | none => none
    | some (k, d, tw) =>
      if d ≤ (TOWER_RADIUS + 5) ^ 2 then
        if dist2 tw.x tw.y tr.x tr.y ≤ (TOWER_RADIUS + 30) ^ 2 then some k
        else none
      else none
  | (j, tw) :: rest, closest =>
    if dist2 tw.x tw.y tr.x tr.y ≤ (TOWER_RADIUS + TROOP_RADIUS + 20) ^ 2 then
      some j
    else
      let dTarget := dist2 tw.x tw.y tr.targetX tr.targetY
      match closest with
      | none => findTargetGo tr rest (some (j, dTarget, tw))
      | some (k, d, tw0) =>
        if dTarget < d then findTargetGo tr rest (some (j, dTarget, tw))
        else findTargetGo tr rest (some (k, d, tw0))

/-- `GameController._find_target_tower`: the first tower whose enlarged
collision zone (radius + troop radius + 20) contains the troop, else the
tower closest to the troop's target coordinate when that target is within
`radius + 5` of it and the troop itself within `radius + 30`. -/
def findTargetTower (towers : List Tower) (tr : Troop) : Option Nat :=
  findTargetGo tr towers.enum none

/-- Append an arrival to its tower's group in the insertion-ordered
association list modelling the Python dict `tower_arrivals`. -/
def addToGroup (acc : List (Nat × List (Nat × Troop))) (j : Nat)
    (v : Nat × Troop) : List (Nat × List (Nat × Troop)) :=
  match acc with
  | [] => [(j, [v])]
  | (k, vs) :: rest =>
    if k = j then (k, vs ++ [v]) :: rest
    else (k, vs) :: addToGroup rest j v

/-- One step of the grouping loop of `_update_troops`: an (index, troop)
pair that has reached its target and resolves to a tower is appended to
that tower's group. -/
def arrivalCollect (towers : List Tower)
    (acc : List (Nat × List (Nat × Troop))) (p : Nat × Troop) :
    List (Nat × List (Nat × Troop)) :=
  if p.2.has_reached_target then
    match findTargetTower towers p.2 with
    | some j => addToGroup acc j p
    | none => acc
  else acc

/-- The `tower_arrivals` dict of `_update_troops`, keyed by tower index in
first-arrival order, built before any tower state is changed. -/
def towerArrivalsList (towers : List Tower) (troops : List Troop) :
    List (Nat × List (Nat × Troop)) :=
  troops.enum.foldl (arrivalCollect towers) []

/-- The keys (tower indices) of a grouping. -/
def groupKeys (groups : List (Nat × List (Nat × Troop))) : List Nat :=
  groups.map (fun g => g.1)

/-- Total arriving strength of one owner at a tower: the sum of the
counts of that owner's arriving troops. -/
def arrivalTotal (arr : List (Nat × Troop)) (o : Owner) : Nat :=
  ((arr.filter (fun p => decide (p.2.owner = o))).map (fun p => p.2.count)).sum

/-- The troop indices of one owner's arrivals at a tower. -/
def arrivalIdxs (arr : List (Nat × Troop)) (o : Owner) : List Nat :=
  (arr.filter (fun p => decide (p.2.owner = o))).map (fun p => p.1)

/-- The per-tower arrival processing of `_update_troops` (lines 532-603):
with both Player and Enemy strength present they cancel pairwise and the
winner's remainder is applied by a single `receive_attack` (none on a
tie), with all Player and Enemy arrivals marked for removal; otherwise
each owner group present is applied by one `receive_attack` with its
summed total (player, then enemy, then neutral) and its arrivals marked
for removal.  Returns the new tower state, the `receive_attack` calls
made (amount, attacker) in order, and the removed troop indices. -/
def processTowerArrivals (tw : Tower) (arr : List (Nat × Troop)) :
    Tower × List (Nat × Owner) × List Nat :=
  let totalPlayer := arrivalTotal arr Owner.player
  let totalEnemy := arrivalTotal arr Owner.enemy
  let totalNeutral := arrivalTotal arr Owner.neutral
  let bothIdxs := arrivalIdxs arr Owner.player ++ arrivalIdxs arr Owner.enemy
  if 0 < totalPlayer ∧ 0 < totalEnemy then
    if totalEnemy < totalPlayer then
      let remaining := totalPlayer - totalEnemy
      if 0 < remaining then
        ((tw.receive_attack remaining Owner.player).1,
         [(remaining, Owner.player)], bothIdxs)
      else (tw, [], bothIdxs)
    else if totalPlayer < totalEnemy then
      let remaining := totalEnemy - totalPlayer
      if 0 < remaining then
        ((tw.receive_attack remaining Owner.enemy).1,
         [(remaining, Owner.enemy)], bothIdxs)
      else (tw, [], bothIdxs)
    else (tw, [], bothIdxs)
  else
    let step1 : Tower × List (Nat × Owner) × List Nat :=
      if 0 < totalPlayer then
        ((tw.receive_attack totalPlayer Owner.player).1,
         [(totalPlayer, Owner.player)], arrivalIdxs arr Owner.player)
      else (tw, [], [])
    let step2 : Tower × List (Nat × Owner) × List Nat :=
      if 0 < totalEnemy then
        ((step1.1.receive_attack totalEnemy Owner.enemy).1,
         [(totalEnemy, Owner.enemy)], arrivalIdxs arr Owner.enemy)
      else (step1.1, [], [])
    let step3 : Tower × List (Nat × Owner) × List Nat :=
      if 0 < totalNeutral then
        ((step2.1.receive_attack totalNeutral Owner.neutral).1,
         [(totalNeutral, Owner.neutral)], arrivalIdxs arr Owner.neutral)
      else (step2.1, [], [])
    (step3.1, step1.2.1 ++ step2.2.1 ++ step3.2.1,
     step1.2.2 ++ step2.2.2 ++ step3.2.2)

/-- One step of the per-tower processing loop over the grouping: look the
tower up by index, process its arrivals, store the new tower state and
extend the removal list. -/
def arrivalStep (acc : List Tower × List Nat)
    (g : Nat × List (Nat × Troop)) : List Tower × List Nat :=
  match acc.1[g.1]? with
  | some tw =>
    let res := processTowerArrivals tw g.2
    (acc.1.set g.1 res.1, acc.2 ++ res.2.2)
  | none => acc

/-- Process every tower's arrivals (the `for tower, arriving_troops in
tower_arrivals.items()` loop). -/
def processArrivalGroups (towers : List Tower)
    (groups : List (Nat × List (Nat × Troop))) : List Tower × List Nat :=
  groups.foldl arrivalStep (towers, [])

/-- `for i in reversed(sorted(idxs)): if i < len(l): del l[i]`. -/
def deleteIndicesDesc {α : Type} (l : List α) (idxs : List Nat) : List α :=
  ((idxs.insertionSort (fun a b => a ≤ b)).reverse).foldl
    (fun acc i => if i < acc.length then acc.eraseIdx i else acc) l

/-- The inner `for j in range(i+1, n)` loop of `_handle_troop_combat`:
skip troops already removed or already in combat; on the first
different-owner pair within the buffered collision distance
(radius + radius + 15, compared squared) run `combat_with` (which updates
the survivor's count in place), mark both as in combat, mark eliminated
sides for removal, and break. -/
def combatInnerLoop (i : Nat) : List Nat → List Troop → List Nat → List Nat →
    List Troop × List Nat × List Nat
  | [], troops, rem, inC => (troops, rem, inC)
  | j :: js, troops, rem, inC =>
    if j ∈ rem ∨ j ∈ inC then combatInnerLoop i js troops rem inC
    else
      match troops[i]?, troops[j]? with
      | some t1, some t2 =>
        if t1.owner ≠ t2.owner ∧
            dist2 t1.x t1.y t2.x t2.y ≤ (TROOP_RADIUS + TROOP_RADIUS + 15) ^ 2 then
          let res := t1.combat_with t2
          ((troops.set i (res.1.getD t1)).set j (res.2.getD t2),
           rem ++ (if res.1 = none then [i] else [])
               ++ (if res.2 = none then [j] else []),
           inC ++ [i, j])
        else combatInnerLoop i js troops rem inC
      | _, _ => combatInnerLoop i js troops rem inC

/-- The outer `for i in range(n)` loop of `_handle_troop_combat`. -/
def combatOuterLoop : List Nat → List Troop → List Nat → List Nat →
    List Troop × List Nat
  | [], troops, rem, _ => (troops, rem)
  | i :: rest, troops, rem, inC =>
    if i ∈ rem ∨ i ∈ inC then combatOuterLoop rest troops rem inC
    else
      let res := combatInnerLoop i
        (List.range' (i + 1) (troops.length - (i + 1))) troops rem inC
      combatOuterLoop rest res.1 res.2.1 res.2.2

/-- `GameController._handle_troop_combat`: pairwise combat with the
one-combat-per-troop-per-tick rule, then deletion of defeated troops in
reversed sorted index order. -/
def handleTroopCombat (troops : List Troop) : List Troop :=
  let res := combatOuterLoop (List.range troops.length) troops [] []
  deleteIndicesDesc res.1 res.2

/-- `GameController._update_troops` after the movement update: build the
per-tower arrival grouping (no tower state touched yet), process each
tower's arrivals, delete the arrived troops, and only then run the
troop-vs-troop combat resolver on the remainder. -/
def updateTroopsTick (towers : List Tower) (troops : List Troop) :
    List Tower × List Troop :=
  let groups := towerArrivalsList towers troops
  let res := processArrivalGroups towers groups
  let remaining := deleteIndicesDesc troops res.2
  (res.1, handleTroopCombat remaining)

lemma mem_groupKeys_addToGroup (j : Nat) (v : Nat × Troop) :
    ∀ (acc : List (Nat × List (Nat × Troop))) (a : Nat),
      a ∈ groupKeys (addToGroup acc j v) ↔ a ∈ groupKeys acc ∨ a = j := by
  intro acc
  induction acc with
  | nil => intro a; simp [addToGroup, groupKeys]
  | cons g rest ih =>
    intro a
    obtain ⟨k, vs⟩ := g
    by_cases hk : k = j
    · simp [addToGroup, hk, groupKeys, List.mem_cons]
      tauto
    · simp only [addToGroup, groupKeys]
      rw [if_neg hk]
      simp only [List.map_cons, List.mem_cons]
      rw [show (List.map (fun g => g.1) (addToGroup rest j v))
          = groupKeys (addToGroup rest j v) from rfl, ih a]
      simp only [groupKeys]
      tauto

lemma nodup_groupKeys_addToGroup (j : Nat) (v : Nat × Troop) :
    ∀ (acc : List (Nat × List (Nat × Troop))),
      (groupKeys acc).Nodup → (groupKeys (addToGroup acc j v)).Nodup := by
  intro acc
  induction acc with
  | nil => intro _; simp [addToGroup, groupKeys]
  | cons g rest ih =>
    intro hnd
    obtain ⟨k, vs⟩ := g
    simp only [groupKeys, List.map_cons, List.nodup_cons] at hnd
    by_cases hk : k = j
    · simp only [addToGroup, groupKeys, hk, if_true, eq_self_iff_true,
        List.map_cons, List.nodup_cons]
      exact ⟨hk ▸ hnd.1, hnd.2⟩
    · simp only [addToGroup, groupKeys]
      rw [if_neg hk]
      simp only [List.map_cons, List.nodup_cons]
      refine ⟨?_, ih hnd.2⟩
      intro hmem
      rcases (mem_groupKeys_addToGroup j v rest k).mp hmem with h | h
      · exact hnd.1 h
      · exact hk h

lemma nodup_groupKeys_foldl_arrivalCollect (towers : List Tower) :
    ∀ (l : List (Nat × Troop)) (acc : List (Nat × List (Nat × Troop))),
      (groupKeys acc).Nodup →
      (groupKeys (l.foldl (arrivalCollect towers) acc)).Nodup := by
  intro l
  induction l with
  | nil => intro acc h; exact h
  | cons p rest ih =>
    intro acc h
    simp only [List.foldl_cons]
    apply ih
    unfold arrivalCollect
    by_cases hr : p.2.has_reached_target = true
    · rw [if_pos hr]
      cases hft : findTargetTower towers p.2 with
      | none => exact h
      | some j => exact nodup_groupKeys_addToGroup j p acc h
    · rw [if_neg hr]
      exact h

lemma nodup_groupKeys_towerArrivalsList (towers : List Tower)
    (troops : List Troop) : (groupKeys (towerArrivalsList towers troops)).Nodup :=
  nodup_groupKeys_foldl_arrivalCollect towers troops.enum [] (by simp [groupKeys])

lemma arrivalStep_fst_getElem_ne (acc : List Tower × List Nat)
    (g : Nat × List (Nat × Troop)) (j : Nat) (h : g.1 ≠ j) :
    ((arrivalStep acc g).1)[j]? = acc.1[j]? := by
  unfold arrivalStep
  cases hx : acc.1[g.1]? with
  | none => rfl
  | some tw => exact List.getElem?_set_ne h

lemma foldl_arrivalStep_fst_getElem_ne (j : Nat) :
    ∀ (groups : List (Nat × List (Nat × Troop))) (acc : List Tower × List Nat),
      j ∉ groupKeys groups →
      ((groups.foldl arrivalStep acc).1)[j]? = acc.1[j]? := by
  intro groups
  induction groups with
  | nil => intro acc _; rfl
  | cons g rest ih =>
    intro acc hj
    simp only [groupKeys, List.map_cons, List.mem_cons] at hj
    push_neg at hj
    simp only [List.foldl_cons]
    rw [ih _ (by simpa [groupKeys] using hj.2)]
    exact arrivalStep_fst_getElem_ne acc g j (fun h => hj.1 h.symm)

lemma foldl_arrivalStep_fst_getElem_mem :
    ∀ (groups : List (Nat × List (Nat × Troop))) (acc : List Tower × List Nat),
      (groupKeys groups).Nodup →
      ∀ j a, (j, a) ∈ groups → ∀ tw, acc.1[j]? = some tw →
        ((groups.foldl arrivalStep acc).1)[j]? = some (processTowerArrivals tw a).1 := by
  intro groups
  induction groups with
  | nil => intro acc _ j a h; exact absurd h (List.not_mem_nil _)
  | cons g rest ih =>
    intro acc hnd j a hmem tw htw
    obtain ⟨k, b⟩ := g
    simp only [groupKeys, List.map_cons, List.nodup_cons] at hnd
    simp only [List.foldl_cons]
    rcases List.mem_cons.mp hmem with heq | hmem2
    · obtain ⟨rfl, rfl⟩ := Prod.mk.injEq .. ▸ And.intro (congrArg Prod.fst heq).symm (congrArg Prod.snd heq).symm
      have hk : j < acc.1.length := by
        by_contra hge
        rw [List.getElem?_eq_none (by omega)] at htw
        exact Option.noConfusion htw
      have hstep : (arrivalStep acc (j, a)).1
          = acc.1.set j (processTowerArrivals tw a).1 := by
        unfold arrivalStep
        rw [htw]
      rw [foldl_arrivalStep_fst_getElem_ne j rest _ (by simpa [groupKeys] using hnd.1),
        hstep]
      exact List.getElem?_set_eq_of_lt _ hk
    · have hjk : k ≠ j := by
        intro h
        subst h
        exact hnd.1 (List.mem_map.mpr ⟨(k, a), hmem2, rfl⟩)
      apply ih _ hnd.2 j a hmem2 tw
      rw [arrivalStep_fst_getElem_ne acc (k, b) j hjk]
      exact htw

lemma arrival_filter_all (arr : List (Nat × Troop)) (o : Owner)
    (hall : ∀ p ∈ arr, p.2.owner = o) :
    arr.filter (fun p => decide (p.2.owner = o)) = arr := by
  apply List.filter_eq_self.mpr
  intro p hp
  simp [hall p hp]

lemma arrival_other_empty (arr : List (Nat × Troop)) (o o₂ : Owner)
    (hall : ∀ p ∈ arr, p.2.owner = o) (hne : o₂ ≠ o) :
    arrivalTotal arr o₂ = 0 ∧ arrivalIdxs arr o₂ = [] := by
  have hfil : arr.filter (fun p => decide (p.2.owner = o₂)) = [] := by
    apply List.filter_eq_nil_iff.mpr
    intro p hp
    simp only [hall p hp, decide_eq_true_eq]
    exact fun h => hne h.symm
  constructor <;> simp [arrivalTotal, arrivalIdxs, hfil]

/-- C4: (i) with both Player and Enemy strength arriving at a tower, a
single `receive_attack` with `|player_total − enemy_total|` from the
stronger side is applied (none on a tie) and all Player and Enemy
arrivals are removed; (ii) when all arrivals at a tower belong to one
owner, a single `receive_attack` with their summed total is applied and
all of them are removed; (iii) the grouping keys are distinct and, in the
full `_update_troops` tick, every tower's resulting state is exactly the
processing of its own pre-collected arrival group (towers without
arrivals are untouched); (iv) the combat resolver runs only afterwards,
on the troop list with the arrivals already removed. -/
theorem arrival_aggregation_spec (tw : Tower) (arr : List (Nat × Troop))
    (towers : List Tower) (troops : List Troop) (o : Owner) :
    (0 < arrivalTotal arr Owner.player → 0 < arrivalTotal arr Owner.enemy →
      arrivalTotal arr Owner.enemy < arrivalTotal arr Owner.player →
      processTowerArrivals tw arr
        = ((tw.receive_attack
              (arrivalTotal arr Owner.player - arrivalTotal arr Owner.enemy)
              Owner.player).1,
           [(arrivalTotal arr Owner.player - arrivalTotal arr Owner.enemy,
             Owner.player)],
           arrivalIdxs arr Owner.player ++ arrivalIdxs arr Owner.enemy)) ∧
    (0 < arrivalTotal arr Owner.player → 0 < arrivalTotal arr Owner.enemy →
      arrivalTotal arr Owner.player < arrivalTotal arr Owner.enemy →
      processTowerArrivals tw arr
        = ((tw.receive_attack
              (arrivalTotal arr Owner.enemy - arrivalTotal arr Owner.player)
              Owner.enemy).1,
           [(arrivalTotal arr Owner.enemy - arrivalTotal arr Owner.player,
             Owner.enemy)],
           arrivalIdxs arr Owner.player ++ arrivalIdxs arr Owner.enemy)) ∧
    (0 < arrivalTotal arr Owner.player → 0 < arrivalTotal arr Owner.enemy →
      arrivalTotal arr Owner.player = arrivalTotal arr Owner.enemy →
      processTowerArrivals tw arr
        = (tw, [], arrivalIdxs arr Owner.player ++ arrivalIdxs arr Owner.enemy)) ∧
    ((∀ p ∈ arr, p.2.owner = o) → 0 < arrivalTotal arr o →
      processTowerArrivals tw arr
        = ((tw.receive_attack (arrivalTotal arr o) o).1, [(arrivalTotal arr o, o)],
           arr.map (fun p => p.1))) ∧
    ((groupKeys (towerArrivalsList towers troops)).Nodup) ∧
    (∀ j a, (j, a) ∈ towerArrivalsList towers troops →
      ∀ t₀, towers[j]? = some t₀ →
        ((updateTroopsTick towers troops).1)[j]?
          = some (processTowerArrivals t₀ a).1) ∧
    (∀ j, j ∉ groupKeys (towerArrivalsList towers troops) →
      ((updateTroopsTick towers troops).1)[j]? = towers[j]?) ∧
    ((updateTroopsTick towers troops).2
      = handleTroopCombat (deleteIndicesDesc troops
          (processArrivalGroups towers (towerArrivalsList towers troops)).2)) := by
  refine ⟨?_, ?_, ?_, ?_, nodup_groupKeys_towerArrivalsList towers troops,
    ?_, ?_, rfl⟩
  · intro hp he hlt
    have hboth : 0 < arrivalTotal arr Owner.player ∧
        0 < arrivalTotal arr Owner.enemy := ⟨hp, he⟩
    simp only [processTowerArrivals]
    rw [if_pos hboth, if_pos hlt,
      if_pos (by omega :
        0 < arrivalTotal arr Owner.player - arrivalTotal arr Owner.enemy)]
  · intro hp he hlt
    have hboth : 0 < arrivalTotal arr Owner.player ∧
        0 < arrivalTotal arr Owner.enemy := ⟨hp, he⟩
    simp only [processTowerArrivals]
    rw [if_pos hboth,
      if_neg (by omega :
        ¬ arrivalTotal arr Owner.enemy < arrivalTotal arr Owner.player),
      if_pos hlt,
      if_pos (by omega :
        0 < arrivalTotal arr Owner.enemy - arrivalTotal arr Owner.player)]
  · intro hp he heq
    have hboth : 0 < arrivalTotal arr Owner.player ∧
        0 < arrivalTotal arr Owner.enemy := ⟨hp, he⟩
    simp only [processTowerArrivals]
    rw [if_pos hboth,
      if_neg (by omega :
        ¬ arrivalTotal arr Owner.enemy < arrivalTotal arr Owner.player),
      if_neg (by omega :
        ¬ arrivalTotal arr Owner.player < arrivalTotal arr Owner.enemy)]
  · intro hall htot
    cases o with
    | player =>
      obtain ⟨hE, _⟩ := arrival_other_empty arr _ Owner.enemy hall (by decide)
      obtain ⟨hN, _⟩ := arrival_other_empty arr _ Owner.neutral hall (by decide)
      have hself : arrivalIdxs arr Owner.player = arr.map (fun p => p.1) := by
        simp [arrivalIdxs, arrival_filter_all arr _ hall]
      have hnboth : ¬ (0 < arrivalTotal arr Owner.player ∧
          0 < arrivalTotal arr Owner.enemy) := by omega
      simp only [processTowerArrivals]
      rw [if_neg hnboth, if_pos htot,
        if_neg (by omega : ¬ 0 < arrivalTotal arr Owner.enemy),
        if_neg (by omega : ¬ 0 < arrivalTotal arr Owner.neutral)]
      simp [hself]
    | enemy =>
      obtain ⟨hP, _⟩ := arrival_other_empty arr _ Owner.player hall (by decide)
      obtain ⟨hN, _⟩ := arrival_other_empty arr _ Owner.neutral hall (by decide)
      have hself : arrivalIdxs arr Owner.enemy = arr.map (fun p => p.1) := by
        simp [arrivalIdxs, arrival_filter_all arr _ hall]
      have hnboth : ¬ (0 < arrivalTotal arr Owner.player ∧
          0 < arrivalTotal arr Owner.enemy) := by omega
      simp only [processTowerArrivals]
      rw [if_neg hnboth,
        if_neg (by omega : ¬ 0 < arrivalTotal arr Owner.player), if_pos htot,
        if_neg (by omega : ¬ 0 < arrivalTotal arr Owner.neutral)]
      simp [hself]
    | neutral =>
      obtain ⟨hP, _⟩ := arrival_other_empty arr _ Owner.player hall (by decide)
      obtain ⟨hE, _⟩ := arrival_other_empty arr _ Owner.enemy hall (by decide)
      have hself : arrivalIdxs arr Owner.neutral = arr.map (fun p => p.1) := by
        simp [arrivalIdxs, arrival_filter_all arr _ hall]
      have hnboth : ¬ (0 < arrivalTotal arr Owner.player ∧
          0 < arrivalTotal arr Owner.enemy) := by omega
      simp only [processTowerArrivals]
      rw [if_neg hnboth,
        if_neg (by omega : ¬ 0 < arrivalTotal arr Owner.player),
        if_neg (by omega : ¬ 0 < arrivalTotal arr Owner.enemy), if_pos htot]
      simp [hself]
  · intro j a hmem t₀ ht₀
    exact foldl_arrivalStep_fst_getElem_mem (towerArrivalsList towers troops)
      (towers, []) (nodup_groupKeys_towerArrivalsList towers troops) j a hmem t₀ ht₀
  · intro j hj
    exact foldl_arrivalStep_fst_getElem_ne j (towerArrivalsList towers troops)
      (towers, []) hj

/-- The concrete tower of the C4 witness: an Enemy tower holding 5. -/
def c4Tower : Tower := ⟨0, 0, Owner.enemy, 5⟩

/-- The concrete arrivals of the C4 witness: 7 Player units and 3 Enemy
units reach the tower in the same tick. -/
def c4Arrivals : List (Nat × Troop) :=
  [(0, ⟨0, 0, 0, 0, Owner.player, 7⟩), (1, ⟨0, 0, 0, 0, Owner.enemy, 3⟩)]

/-- Witness for `arrival_aggregation_spec`: 7 Player vs 3 Enemy arriving
at an Enemy tower with 5 troops yields one `receive_attack(4, Player)`
call (the tower drops to 1), with both arrivals removed. -/
theorem arrival_aggregation_spec_witness :
    0 < arrivalTotal c4Arrivals Owner.player ∧
    0 < arrivalTotal c4Arrivals Owner.enemy ∧
    arrivalTotal c4Arrivals Owner.enemy < arrivalTotal c4Arrivals Owner.player ∧
    processTowerArrivals c4Tower c4Arrivals
      = (⟨0, 0, Owner.enemy, 1⟩, [(4, Owner.player)], [0, 1]) := by
  refine ⟨by decide, by decide, by decide, ?_⟩
  have h := (arrival_aggregation_spec c4Tower c4Arrivals [] [] Owner.player).1
    (by decide) (by decide) (by decide)
  rw [h]
  decide

end TowerWar
